import Mathlib

/-!
Shallow embedding of the file src/FileSystem.h of the Cpp-SupportLibrary
repository (namespace giri::FileSystem), covering the functions
FindExecutableInPath, ExecuteSync and ExecuteAsync.

Modelling conventions:
- A byte is a Nat (10 is the newline byte, 0 is the NUL byte).
- The output stream that popen exposes is a List Nat of bytes; a popen
  call is modelled by its observable result, an Option over that stream
  (none models a null FILE handle, i.e. spawn failure).
- fgets(buffer.data(), 128, pipe) reads at most 127 bytes, stopping after
  a newline, and NUL-terminates the bytes it stored; it is modelled by
  readChunk 127, which returns the stored bytes and the rest of the
  stream. The expressions result += buffer.data() and
  ostr << buffer.data() read the buffer back as a C string, which ends at
  the first NUL byte; this is modelled by cString.
- Paths and strings handled by FindExecutableInPath are List Char.
-/

/-- Model of the class FileSystemException, carrying its message string. -/
structure FileSystemException where
  msg : String
deriving DecidableEq

/-- Model of fgets with a buffer of capacity cap + 1 bytes: reads at most
cap bytes from the stream, stopping after the first newline byte (10).
Returns the bytes stored in the buffer and the remaining stream. The call
fgets(buffer.data(), 128, pipe.get()) in the source is readChunk 127. -/
def readChunk : Nat → List Nat → List Nat × List Nat
  | 0, s => ([], s)
  | _ + 1, [] => ([], [])
  | cap + 1, c :: rest =>
    if c = 10 then ([c], rest)
    else (c :: (readChunk cap rest).1, (readChunk cap rest).2)

/-- Reading the NUL-terminated buffer back as a C string: the bytes up to
(excluding) the first NUL byte. This is what buffer.data() denotes when
inserted into a std::string or a std::ostream. -/
def cString (chunk : List Nat) : List Nat := chunk.takeWhile (fun c => c != 0)

theorem readChunk_append (cap : Nat) (s : List Nat) :
    (readChunk cap s).1 ++ (readChunk cap s).2 = s := by
  induction cap generalizing s with
  | zero => simp [readChunk]
  | succ n ih =>
    cases s with
    | nil => simp [readChunk]
    | cons c rest =>
      by_cases hc : c = 10
      · simp [readChunk, hc]
      · simp [readChunk, hc, ih rest]

theorem readChunk_snd_length_le (cap : Nat) (s : List Nat) :
    (readChunk cap s).2.length ≤ s.length := by
  induction cap generalizing s with
  | zero => simp [readChunk]
  | succ n ih =>
    cases s with
    | nil => simp [readChunk]
    | cons c rest =>
      by_cases hc : c = 10
      · simp [readChunk, hc]
      · simpa [readChunk, hc] using Nat.le_succ_of_le (ih rest)

theorem readChunk_snd_length_lt (cap : Nat) (c : Nat) (rest : List Nat)
    (hcap : 0 < cap) :
    (readChunk cap (c :: rest)).2.length < (c :: rest).length := by
  cases cap with
  | zero => exact absurd hcap (by simp)
  | succ n =>
    by_cases hc : c = 10
    · simp [readChunk, hc]
    · simpa [readChunk, hc] using Nat.lt_succ_of_le (readChunk_snd_length_le n rest)

theorem readChunk_fst_length_le (cap : Nat) (s : List Nat) :
    (readChunk cap s).1.length ≤ cap := by
  induction cap generalizing s with
  | zero => simp [readChunk]
  | succ n ih =>
    cases s with
    | nil => simp [readChunk]
    | cons c rest =>
      by_cases hc : c = 10
      · simp [readChunk, hc]
      · simpa [readChunk, hc] using Nat.succ_le_succ (ih rest)

/-- Within one chunk returned by readChunk, a newline byte can occur only
in the last position: a read stops as soon as it has consumed a newline. -/
theorem readChunk_newline_last (cap : Nat) (s : List Nat) :
    (readChunk cap s).1.dropLast.all (fun c => c != 10) = true := by
  induction cap generalizing s with
  | zero => simp [readChunk]
  | succ n ih =>
    cases s with
    | nil => simp [readChunk]
    | cons c rest =>
      by_cases hc : c = 10
      · simp [readChunk, hc]
      · have h := ih rest
        cases hfst : (readChunk n rest).1 with
        | nil => simp [readChunk, hc, hfst]
        | cons y ys =>
          rw [hfst] at h
          have hgoal : (readChunk (n + 1) (c :: rest)).1 = c :: y :: ys := by
            simp [readChunk, hc, hfst]
          rw [hgoal, List.dropLast_cons₂, List.all_cons, h]
          simp [hc]

theorem cString_of_no_nul (l : List Nat) (h : ∀ c ∈ l, c ≠ 0) : cString l = l := by
  induction l with
  | nil => rfl
  | cons a l ih =>
    have ha : (a != 0) = true := by simpa using h a (by simp)
    have hl : ∀ c ∈ l, c ≠ 0 := fun c hc => h c (List.mem_cons_of_mem a hc)
    simp only [cString] at *
    rw [List.takeWhile_cons, if_pos ha, ih hl]

/-- The read loop of ExecuteSync, translated from the source:
while (fgets(buffer.data(), buffer.size(), pipe.get()) != nullptr)
  result += buffer.data();
The accumulator models the std::string named result. fgets returns a null
pointer exactly when the stream is exhausted. -/
def syncLoop (s : List Nat) (result : List Nat) : List Nat :=
  match s with
  | [] => result
  | c :: rest =>
    syncLoop (readChunk 127 (c :: rest)).2
      (result ++ cString (readChunk 127 (c :: rest)).1)
termination_by s.length
decreasing_by
  exact readChunk_snd_length_lt 127 c rest (by omega)

/-- The read loop of the lambda inside ExecuteAsync, translated from the
source:
while (fgets(buffer.data(), buffer.size(), pipe.get()) != nullptr)
  ostr << buffer.data();
The accumulator models the bytes already written to the output stream
named ostr. -/
def asyncLoop (s : List Nat) (sink : List Nat) : List Nat :=
  match s with
  | [] => sink
  | c :: rest =>
    asyncLoop (readChunk 127 (c :: rest)).2
      (sink ++ cString (readChunk 127 (c :: rest)).1)
termination_by s.length
decreasing_by
  exact readChunk_snd_length_lt 127 c rest (by omega)

theorem syncLoop_nil (result : List Nat) : syncLoop [] result = result := by
  simp [syncLoop]

theorem syncLoop_cons (c : Nat) (rest result : List Nat) :
    syncLoop (c :: rest) result =
      syncLoop (readChunk 127 (c :: rest)).2
        (result ++ cString (readChunk 127 (c :: rest)).1) := by
  rw [syncLoop]

theorem asyncLoop_nil (sink : List Nat) : asyncLoop [] sink = sink := by
  simp [asyncLoop]

theorem asyncLoop_cons (c : Nat) (rest sink : List Nat) :
    asyncLoop (c :: rest) sink =
      asyncLoop (readChunk 127 (c :: rest)).2
        (sink ++ cString (readChunk 127 (c :: rest)).1) := by
  rw [asyncLoop]

theorem syncLoop_eq_asyncLoop_aux (n : Nat) :
    ∀ s acc : List Nat, s.length ≤ n → syncLoop s acc = asyncLoop s acc := by
  induction n with
  | zero =>
    intro s acc h
    cases s with
    | nil => rw [syncLoop_nil, asyncLoop_nil]
    | cons c rest => simp at h
  | succ n ih =>
    intro s acc h
    cases s with
    | nil => rw [syncLoop_nil, asyncLoop_nil]
    | cons c rest =>
      rw [syncLoop_cons, asyncLoop_cons]
      apply ih
      have hlt := readChunk_snd_length_lt 127 c rest (by omega)
      simp only [List.length_cons] at h hlt
      omega

/-- The two read loops are the same computation. -/
theorem syncLoop_eq_asyncLoop (s acc : List Nat) : syncLoop s acc = asyncLoop s acc :=
  syncLoop_eq_asyncLoop_aux s.length s acc (Nat.le_refl _)

theorem asyncLoop_acc_aux (n : Nat) :
    ∀ s acc : List Nat, s.length ≤ n → asyncLoop s acc = acc ++ asyncLoop s [] := by
  induction n with
  | zero =>
    intro s acc h
    cases s with
    | nil => simp [asyncLoop_nil]
    | cons c rest => simp at h
  | succ n ih =>
    intro s acc h
    cases s with
    | nil => simp [asyncLoop_nil]
    | cons c rest =>
      have hlt := readChunk_snd_length_lt 127 c rest (by omega)
      simp only [List.length_cons] at h hlt
      have hlen : (readChunk 127 (c :: rest)).2.length ≤ n := by omega
      rw [asyncLoop_cons, asyncLoop_cons,
        ih _ (acc ++ cString (readChunk 127 (c :: rest)).1) hlen,
        ih _ ([] ++ cString (readChunk 127 (c :: rest)).1) hlen]
      simp

/-- Appending to the accumulator of asyncLoop commutes with the loop: the
bytes already in the sink are left untouched and the loop only appends. -/
theorem asyncLoop_acc (s acc : List Nat) : asyncLoop s acc = acc ++ asyncLoop s [] :=
  asyncLoop_acc_aux s.length s acc (Nat.le_refl _)

theorem asyncLoop_no_nul_aux (n : Nat) :
    ∀ s sink : List Nat, s.length ≤ n → (∀ c ∈ s, c ≠ 0) →
      asyncLoop s sink = sink ++ s := by
  induction n with
  | zero =>
    intro s sink hlen h
    cases s with
    | nil => simp [asyncLoop_nil]
    | cons c rest => simp at hlen
  | succ n ih =>
    intro s sink hlen h
    cases s with
    | nil => simp [asyncLoop_nil]
    | cons c rest =>
      have hsplit := readChunk_append 127 (c :: rest)
      have hfst : ∀ b ∈ (readChunk 127 (c :: rest)).1, b ≠ 0 := by
        intro b hb
        exact h b (by rw [← hsplit]; exact List.mem_append_left _ hb)
      have hsnd : ∀ b ∈ (readChunk 127 (c :: rest)).2, b ≠ 0 := by
        intro b hb
        exact h b (by rw [← hsplit]; exact List.mem_append_right _ hb)
      have hlt := readChunk_snd_length_lt 127 c rest (by omega)
      simp only [List.length_cons] at hlen hlt
      rw [asyncLoop_cons, cString_of_no_nul _ hfst, ih _ _ (by omega) hsnd]
      rw [List.append_assoc, hsplit]

/-- If the stream contains no NUL byte, the loop forwards it verbatim. -/
theorem asyncLoop_no_nul (s sink : List Nat) (h : ∀ c ∈ s, c ≠ 0) :
    asyncLoop s sink = sink ++ s :=
  asyncLoop_no_nul_aux s.length s sink (Nat.le_refl _) h

/-- Model of ExecuteSync. The argument is the observable result of the
popen call: none models a null FILE handle (spawn failure, the source
throws FileSystemException with message popen() failed!), some s models a
pipe exposing the byte stream s. On success the function returns the
accumulated std::string named result, initially empty. -/
def ExecuteSync (pipe : Option (List Nat)) : Except FileSystemException (List Nat) :=
  match pipe with
  | none => Except.error ⟨"popen() failed!"⟩
  | some s => Except.ok (syncLoop s [])

/-- Model of the body of the lambda that ExecuteAsync passes to std::async.
Given the observable popen result and the bytes already in the sink, it
returns the sink content after the task has run, together with the task
outcome: an error exactly when popen returned a null handle (the lambda
throws before touching the sink), otherwise ok after the read loop has
forwarded the stream into the sink. -/
def asyncTask (pipe : Option (List Nat)) (sink : List Nat) :
    List Nat × Except FileSystemException Unit :=
  match pipe with
  | none => (sink, Except.error ⟨"popen() failed!"⟩)
  | some s => (asyncLoop s sink, Except.ok ())

/-- Model of the std::future returned by ExecuteAsync: it records the task
it was created for (the popen result the task will observe and the sink
the task writes to). -/
structure CompletionHandle where
  pipe : Option (List Nat)
  sinkStart : List Nat
deriving DecidableEq

/-- Model of the spawning phase of ExecuteAsync, the code that runs on the
caller thread: auto hdl = std::async(std::launch::async, ...); return hdl;
It only packages the task into a future and returns it. Its result type is
an Except to record whether the caller thread itself can observe an
exception: it never does, every call returns ok with a handle. -/
def ExecuteAsync (pipe : Option (List Nat)) (sink : List Nat) :
    Except FileSystemException CompletionHandle :=
  Except.ok ⟨pipe, sink⟩

/-- Awaiting the handle (future.get or future.wait) surfaces the outcome of
the background task: the sink content after the task and the captured
exception, if any, re-raised to the awaiting party. -/
def awaitHandle (h : CompletionHandle) : List Nat × Except FileSystemException Unit :=
  asyncTask h.pipe h.sinkStart

/-- States of the shared state of the std::future returned by ExecuteAsync:
pending while the background task runs, then exactly one of completedSt
(the lambda returned) or failedSt (the lambda threw). -/
inductive HandleState where
  | pending
  | completedSt
  | failedSt
deriving DecidableEq

/-- Terminal state the background task of ExecuteAsync resolves the future
to: failedSt when popen returned a null handle (the lambda throws),
completedSt otherwise. -/
def terminalFor (pipe : Option (List Nat)) : HandleState :=
  match pipe with
  | none => HandleState.failedSt
  | some _ => HandleState.completedSt

/-- Number of child processes the task creates: popen either fails to
create a process (none) or creates exactly one (some). -/
def spawnCount (pipe : Option (List Nat)) : Nat :=
  match pipe with
  | none => 0
  | some _ => 1

/-- One observation step on the shared state of the future, paired with
the running count of child processes created so far. A pending future is
resolved by the single background task, creating at most one process; a
resolved future is returned unchanged and no further process is created. -/
def resolveStep (pipe : Option (List Nat)) : HandleState × Nat → HandleState × Nat
  | (HandleState.pending, k) => (terminalFor pipe, k + spawnCount pipe)
  | (st, k) => (st, k)

/-- The shared state after n awaits of the same handle, starting Pending
with no process created. -/
def observeN (pipe : Option (List Nat)) (n : Nat) : HandleState × Nat :=
  (resolveStep pipe)^[n] (HandleState.pending, 0)

theorem terminalFor_ne_pending (pipe : Option (List Nat)) :
    terminalFor pipe ≠ HandleState.pending := by
  cases pipe <;> simp [terminalFor]

theorem resolveStep_fixes_terminal (pipe : Option (List Nat)) (k : Nat) :
    resolveStep pipe (terminalFor pipe, k) = (terminalFor pipe, k) := by
  cases pipe <;> simp [terminalFor, resolveStep]

theorem observeN_succ_succ (pipe : Option (List Nat)) (n : Nat) :
    observeN pipe (n + 1) = (terminalFor pipe, spawnCount pipe) := by
  induction n with
  | zero => simp [observeN, resolveStep]
  | succ n ih =>
    have : observeN pipe (n + 1 + 1) = resolveStep pipe (observeN pipe (n + 1)) := by
      simp [observeN, Function.iterate_succ_apply']
    rw [this, ih, resolveStep_fixes_terminal]

/-- Small-step view of one background task of ExecuteAsync: ready before
the popen call (recording what popen will return and the current sink
content), running the fgets loop, or terminal (succeeded after the loop,
failedT after the throw on a null handle). -/
inductive TaskState where
  | ready (pipe : Option (List Nat)) (sink : List Nat)
  | running (stream : List Nat) (sink : List Nat)
  | succeeded (sink : List Nat)
  | failedT (sink : List Nat)
deriving DecidableEq

/-- One step of a background task: the popen call, one fgets iteration
forwarding one chunk to the sink of this task, or loop exit; terminal
states are unchanged. Each step touches only the state of its own task. -/
def taskStep : TaskState → TaskState
  | TaskState.ready none sink => TaskState.failedT sink
  | TaskState.ready (some s) sink => TaskState.running s sink
  | TaskState.running [] sink => TaskState.succeeded sink
  | TaskState.running (c :: rest) sink =>
    TaskState.running (readChunk 127 (c :: rest)).2
      (sink ++ cString (readChunk 127 (c :: rest)).1)
  | TaskState.succeeded sink => TaskState.succeeded sink
  | TaskState.failedT sink => TaskState.failedT sink

/-- Two concurrent ExecuteAsync invocations with their own sinks: a
scheduler step runs one step of the chosen task (true for the first,
false for the second). -/
def pairStep (w : Bool) (p : TaskState × TaskState) : TaskState × TaskState :=
  if w then (taskStep p.1, p.2) else (p.1, taskStep p.2)

/-- Running the two tasks under an arbitrary interleaving schedule. -/
def runSched (sched : List Bool) (p : TaskState × TaskState) : TaskState × TaskState :=
  sched.foldl (fun q w => pairStep w q) p

theorem runSched_nil (p : TaskState × TaskState) : runSched [] p = p := rfl

theorem runSched_cons (w : Bool) (sched : List Bool) (p : TaskState × TaskState) :
    runSched (w :: sched) p = runSched sched (pairStep w p) := rfl

theorem runSched_fst (sched : List Bool) (p : TaskState × TaskState) :
    (runSched sched p).1 = taskStep^[sched.count true] p.1 := by
  induction sched generalizing p with
  | nil => simp [runSched_nil]
  | cons w sched ih =>
    rw [runSched_cons, ih]
    cases w with
    | true =>
      simp [pairStep, List.count_cons, Function.iterate_succ_apply]
    | false =>
      simp [pairStep, List.count_cons]

theorem runSched_snd (sched : List Bool) (p : TaskState × TaskState) :
    (runSched sched p).2 = taskStep^[sched.count false] p.2 := by
  induction sched generalizing p with
  | nil => simp [runSched_nil]
  | cons w sched ih =>
    rw [runSched_cons, ih]
    cases w with
    | true =>
      simp [pairStep, List.count_cons]
    | false =>
      simp [pairStep, List.count_cons, Function.iterate_succ_apply]

/-- Model of the tokenizing loop of FindExecutableInPath:
while (std::getline(tokenStream, token, delim)) tokens.push_back(token);
std::getline reads up to, and consumes, the next delimiter, and fails only
when the stream is already exhausted; so an empty input yields no token
and a trailing delimiter yields no trailing empty token. -/
def splitTokens (delim : Char) : List Char → List (List Char)
  | [] => []
  | c :: s =>
    if c = delim then [] :: splitTokens delim s
    else
      match splitTokens delim s with
      | [] => [[c]]
      | t :: ts => (c :: t) :: ts

/-- A POSIX path is absolute when it starts with a separator. -/
def isAbsolute (p : List Char) : Bool :=
  match p with
  | [] => false
  | c :: _ => c == '/'

/-- Model of std::filesystem::path::append (the call exec.append(executable)
on the path built from one PATH token), with POSIX generic-format
semantics: an absolute right operand replaces the left; appending to an
empty path yields the right operand; otherwise a separator is inserted
unless the left operand already ends with one. -/
def appendPath (dir name : List Char) : List Char :=
  if isAbsolute name then name
  else if dir = [] then name
  else if dir.getLast? = some '/' then dir ++ name
  else dir ++ '/' :: name

/-- The filename component of a path: the part after the last separator. -/
def fileNameOf (p : List Char) : List Char :=
  (p.reverse.takeWhile (fun c => c != '/')).reverse

/-- The part of the path before its filename component. -/
def dirPartOf (p : List Char) : List Char :=
  p.take (p.length - (fileNameOf p).length)

/-- The stem of a filename, per std::filesystem rules: the part before the
last dot, except that the filenames dot and dot-dot, a filename without a
dot, and a filename whose only dot is leading (a dotfile) have no
extension and are their own stem. -/
def stemOf (f : List Char) : List Char :=
  if f = ['.', '.'] then f
  else
    if (f.reverse.takeWhile (fun c => c != '.')).length = f.length then f
    else if f.length - (f.reverse.takeWhile (fun c => c != '.')).length - 1 = 0 then f
    else f.take (f.length - (f.reverse.takeWhile (fun c => c != '.')).length - 1)

/-- Model of exec.replace_extension(".exe"): the extension of the filename
component, if any, is removed and .exe is appended. -/
def replaceExtExe (p : List Char) : List Char :=
  dirPartOf p ++ stemOf (fileNameOf p) ++ ['.', 'e', 'x', 'e']

/-- The loop body of FindExecutableInPath over the PATH tokens, translated
from the source: for each token, build token slash executable and return
it if it exists; otherwise replace its extension by .exe and return that
if it exists; otherwise continue; return the empty path when the tokens
are exhausted. The filesystem is abstracted by the predicate fsExists
modelling std::filesystem::exists. -/
def searchTokens (fsExists : List Char → Bool) (executable : List Char) :
    List (List Char) → List Char
  | [] => []
  | t :: ts =>
    if fsExists (appendPath t executable) then appendPath t executable
    else if fsExists (replaceExtExe (appendPath t executable)) then
      replaceExtExe (appendPath t executable)
    else searchTokens fsExists executable ts

/-- Model of FindExecutableInPath: split the PATH value at the platform
delimiter (colon on POSIX, semicolon on Windows; only the delimiter is
conditionally compiled) and scan the tokens in order. -/
def FindExecutableInPath (fsExists : List Char → Bool) (delim : Char)
    (path executable : List Char) : List Char :=
  searchTokens fsExists executable (splitTokens delim path)

/-- The candidate paths FindExecutableInPath probes, in probe order: for
each PATH token, first the bare name, then the name with its extension
replaced by .exe. -/
def candidates (tokens : List (List Char)) (executable : List Char) :
    List (List Char) :=
  (tokens.map (fun t =>
    [appendPath t executable, replaceExtExe (appendPath t executable)])).flatten

/-- Capture modes a C++ lambda can use for an outer variable. -/
inductive CaptureMode where
  | byValue
  | byReference
deriving DecidableEq

/-- How the lambda that ExecuteAsync hands to std::async captures the
command string cmd (and the sink ostr): the source writes the default
capture ampersand, so both are captured by reference, not copied. -/
def executeAsyncCmdCapture : CaptureMode := CaptureMode.byReference

theorem readChunk_127_single_nul : readChunk 127 [0] = ([0], []) := rfl

theorem asyncLoop_single_nul : asyncLoop [0] [] = [] := by
  rw [asyncLoop_cons, readChunk_127_single_nul]
  rw [show cString [0] = [] from rfl, asyncLoop_nil]
  rfl

/-- C1 counterexample: a child that emits exactly one NUL byte and exits
successfully. The task resolves without error, yet the sink does not
contain the emitted byte stream: the NUL byte was dropped, because the
loop forwards the fgets buffer as a C string. -/
theorem executeAsync_drops_nul_byte :
    (awaitHandle ⟨some [0], []⟩).2 = Except.ok () ∧
    (awaitHandle ⟨some [0], []⟩).1 ≠ [0] := by
  constructor
  · rfl
  · show (asyncTask (some [0]) []).1 ≠ [0]
    simp [asyncTask, asyncLoop_single_nul]

/-- C1 (amended): for every command whose child process exits successfully
and whose emitted byte stream contains no NUL byte, awaiting the handle of
ExecuteAsync leaves the sink holding exactly the bytes already there
followed by the emitted stream, byte-for-byte, with no bytes dropped,
reordered or transformed, and the task resolves without error. -/
theorem executeAsync_forwards_stream_of_no_nul (s sink : List Nat)
    (h : ∀ c ∈ s, c ≠ 0) :
    awaitHandle ⟨some s, sink⟩ = (sink ++ s, Except.ok ()) := by
  show asyncTask (some s) sink = (sink ++ s, Except.ok ())
  simp [asyncTask, asyncLoop_no_nul s sink h]

/-- C1 witness: the stream h, i, newline is forwarded verbatim. -/
theorem executeAsync_forwards_stream_witness :
    awaitHandle ⟨some [104, 105, 10], []⟩ = ([104, 105, 10], Except.ok ()) :=
  executeAsync_forwards_stream_of_no_nul [104, 105, 10] [] (by decide)

/-- C2: when the spawn primitive fails (popen returns a null handle), the
spawning phase of ExecuteAsync still returns a Completion Handle without
raising anything on the caller thread, and the FileSystemException with
message popen() failed! is surfaced exactly when that handle is awaited. -/
theorem executeAsync_spawn_failure_lazy (sink : List Nat) :
    ExecuteAsync none sink = Except.ok ⟨none, sink⟩ ∧
    (awaitHandle ⟨none, sink⟩).2 = Except.error ⟨"popen() failed!"⟩ :=
  ⟨rfl, rfl⟩

/-- C3: when the spawn fails, awaiting the handle surfaces the spawn error
and the sink content is exactly what it was before the call: no byte was
written on the failure path. -/
theorem executeAsync_spawn_failure_sink_unchanged (sink : List Nat) :
    (awaitHandle ⟨none, sink⟩).1 = sink ∧
    (awaitHandle ⟨none, sink⟩).2 = Except.error ⟨"popen() failed!"⟩ :=
  ⟨rfl, rfl⟩

/-- C4: a Completion Handle resolves exactly once: after any positive
number of awaits the shared state equals the state after the first await,
at most one child process has been created in total, the state is no
longer Pending, and it is never both Completed and Failed. -/
theorem completionHandle_resolves_once (pipe : Option (List Nat)) (n : Nat)
    (h : 1 ≤ n) :
    observeN pipe n = observeN pipe 1 ∧ (observeN pipe n).2 ≤ 1 ∧
    (observeN pipe n).1 ≠ HandleState.pending ∧
    ¬((observeN pipe n).1 = HandleState.completedSt ∧
      (observeN pipe n).1 = HandleState.failedSt) := by
  obtain ⟨m, rfl⟩ : ∃ m, n = m + 1 := ⟨n - 1, by omega⟩
  have h1 : observeN pipe 1 = (terminalFor pipe, spawnCount pipe) := observeN_succ_succ pipe 0
  rw [observeN_succ_succ, h1]
  refine ⟨rfl, ?_, terminalFor_ne_pending pipe, ?_⟩
  · cases pipe <;> simp [spawnCount]
  · rintro ⟨h2, h3⟩
    rw [h2] at h3
    exact HandleState.noConfusion h3

/-- C4 witness: two awaits of the handle of a successfully spawned empty
stream observe the same resolved state and one process in total. -/
theorem completionHandle_resolves_once_witness :
    observeN (some []) 2 = observeN (some []) 1 ∧ (observeN (some []) 2).2 ≤ 1 ∧
    (observeN (some []) 2).1 ≠ HandleState.pending ∧
    ¬((observeN (some []) 2).1 = HandleState.completedSt ∧
      (observeN (some []) 2).1 = HandleState.failedSt) :=
  completionHandle_resolves_once (some []) 2 (by decide)

/-- C5 counterexample: the lambda that ExecuteAsync passes to std::async
does not capture the command string by value, so the command is not
copied into the background task. -/
theorem executeAsync_capture_not_by_value :
    executeAsyncCmdCapture ≠ CaptureMode.byValue := by
  decide

/-- C5 (amended): the command string is captured by reference (the default
capture ampersand) into the background task, so the task does depend on
the caller keeping the command string alive while the task runs. -/
theorem executeAsync_capture_by_reference :
    executeAsyncCmdCapture = CaptureMode.byReference := rfl

/-- C6: two ExecuteAsync invocations with distinct sinks are independent.
Under every interleaving schedule, the state of each task (hence its sink
content and its outcome) equals the state after running its own steps
alone, and in particular the first task's state is unchanged when the
second task is replaced by any other task. -/
theorem executeAsync_independent_runs (sched : List Bool)
    (t1 t2 t2' : TaskState) :
    (runSched sched (t1, t2)).1 = taskStep^[sched.count true] t1 ∧
    (runSched sched (t1, t2)).2 = taskStep^[sched.count false] t2 ∧
    (runSched sched (t1, t2)).1 = (runSched sched (t1, t2')).1 := by
  refine ⟨runSched_fst sched (t1, t2), runSched_snd sched (t1, t2), ?_⟩
  rw [runSched_fst sched (t1, t2), runSched_fst sched (t1, t2')]

theorem searchTokens_empty_iff (fsExists : List Char → Bool)
    (executable : List Char) (h : fsExists [] = false) :
    ∀ tokens, (searchTokens fsExists executable tokens = [] ↔
      ∀ c ∈ candidates tokens executable, fsExists c = false) := by
  intro tokens
  induction tokens with
  | nil => simp [searchTokens, candidates]
  | cons t ts ih =>
    by_cases h1 : fsExists (appendPath t executable)
    · constructor
      · intro hempty
        rw [searchTokens, if_pos h1] at hempty
        rw [hempty] at h1
        rw [h] at h1
        exact absurd h1 (by simp)
      · intro hall
        have := hall (appendPath t executable) (by simp [candidates])
        rw [this] at h1
        exact absurd h1 (by simp)
    · by_cases h2 : fsExists (replaceExtExe (appendPath t executable))
      · constructor
        · intro hempty
          rw [searchTokens, if_neg h1, if_pos h2] at hempty
          rw [hempty] at h2
          rw [h] at h2
          exact absurd h2 (by simp)
        · intro hall
          have := hall (replaceExtExe (appendPath t executable)) (by simp [candidates])
          rw [this] at h2
          exact absurd h2 (by simp)
      · rw [searchTokens, if_neg h1, if_neg h2, ih]
        constructor
        · intro hall c hc
          simp only [candidates, List.map_cons, List.flatten_cons, List.mem_append,
            List.mem_cons, List.mem_singleton] at hc
          rcases hc with hc1 | hc
          · rcases hc1 with rfl | hc2
            · simpa using h1
            · rcases hc2 with rfl | hc3
              · simpa using h2
              · simp at hc3
          · exact hall c (by simpa [candidates] using hc)
        · intro hall c hc
          refine hall c ?_
          simp only [candidates, List.map_cons, List.flatten_cons, List.mem_append]
          right
          simpa [candidates] using hc

/-- C7: FindExecutableInPath signals absence by the empty path value, not
by an error: it is a total function into paths, and (whenever the
filesystem does not report an empty path as existing, which a real
filesystem never does) it returns the empty string exactly when no probed
candidate in any PATH directory exists. -/
theorem findExecutableInPath_empty_iff_absent (fsExists : List Char → Bool)
    (delim : Char) (path executable : List Char) (h : fsExists [] = false) :
    FindExecutableInPath fsExists delim path executable = [] ↔
      ∀ c ∈ candidates (splitTokens delim path) executable, fsExists c = false := by
  rw [FindExecutableInPath]
  exact searchTokens_empty_iff fsExists executable h (splitTokens delim path)

/-- C7 witness: with a filesystem in which nothing exists, looking up ls
in the PATH value slash-bin yields the empty path, and conversely. -/
theorem findExecutableInPath_empty_witness :
    FindExecutableInPath (fun _ => false) ':' ['/', 'b', 'i', 'n'] ['l', 's'] = [] ↔
      ∀ c ∈ candidates (splitTokens ':' ['/', 'b', 'i', 'n']) ['l', 's'],
        (fun _ : List Char => false) c = false :=
  findExecutableInPath_empty_iff_absent (fun _ => false) ':'
    ['/', 'b', 'i', 'n'] ['l', 's'] rfl

/-- C8: one fgets read of the forwarding loop of ExecuteAsync stores at
most 127 bytes, stops early at a newline (a newline byte can only be the
last byte of a chunk), and the bytes forwarded to the sink for that chunk
are exactly the bytes before the first NUL byte of the chunk: anything
after an embedded NUL byte is dropped. -/
theorem executeAsync_fgets_chunk_shape (s sink : List Nat) (hs : s ≠ []) :
    (readChunk 127 s).1.length ≤ 127 ∧
    (readChunk 127 s).1.dropLast.all (fun c => c != 10) = true ∧
    asyncLoop s sink =
      asyncLoop (readChunk 127 s).2
        (sink ++ (readChunk 127 s).1.takeWhile (fun c => c != 0)) := by
  refine ⟨readChunk_fst_length_le 127 s, readChunk_newline_last 127 s, ?_⟩
  cases s with
  | nil => exact absurd rfl hs
  | cons c rest => exact asyncLoop_cons c rest sink

/-- C8 witness: the chunk read from the stream H, NUL, newline has three
bytes, its only newline is last, and only the byte before the NUL is
forwarded. -/
theorem executeAsync_fgets_chunk_witness :
    (readChunk 127 [72, 0, 10]).1.length ≤ 127 ∧
    (readChunk 127 [72, 0, 10]).1.dropLast.all (fun c => c != 10) = true ∧
    asyncLoop [72, 0, 10] [] =
      asyncLoop (readChunk 127 [72, 0, 10]).2
        ([] ++ (readChunk 127 [72, 0, 10]).1.takeWhile (fun c => c != 0)) :=
  executeAsync_fgets_chunk_shape [72, 0, 10] [] (by decide)

/-- C9: ExecuteSync and the task of ExecuteAsync perform the same
read-and-forward computation: for every popen outcome, the string that
ExecuteSync returns is exactly what the async task appends to its sink,
and both fail with the same FileSystemException when popen returns a null
handle. -/
theorem executeSync_agrees_executeAsync (pipe : Option (List Nat)) (sink : List Nat) :
    asyncTask pipe sink =
      match ExecuteSync pipe with
      | Except.ok out => (sink ++ out, Except.ok ())
      | Except.error e => (sink, Except.error e) := by
  cases pipe with
  | none => rfl
  | some s =>
    show (asyncLoop s sink, Except.ok ()) = (sink ++ syncLoop s [], Except.ok ())
    rw [syncLoop_eq_asyncLoop, asyncLoop_acc]

theorem searchTokens_eq_find (fsExists : List Char → Bool) (executable : List Char) :
    ∀ tokens, searchTokens fsExists executable tokens =
      ((candidates tokens executable).find? fsExists).getD [] := by
  intro tokens
  induction tokens with
  | nil => simp [searchTokens, candidates]
  | cons t ts ih =>
    by_cases h1 : fsExists (appendPath t executable)
    · rw [searchTokens, if_pos h1]
      simp [candidates, List.find?_cons, h1]
    · by_cases h2 : fsExists (replaceExtExe (appendPath t executable))
      · rw [searchTokens, if_neg h1, if_pos h2]
        simp [candidates, List.find?_cons, h1, h2]
      · rw [searchTokens, if_neg h1, if_neg h2, ih]
        simp [candidates, List.find?_cons, h1, h2]

/-- C10: on every platform (the delimiter is the only conditionally
compiled part), FindExecutableInPath scans the PATH tokens in order and
probes, per directory, first the bare name and then the name with its
extension replaced by .exe, returning the first candidate that exists;
in particular with the POSIX delimiter, a directory holding only foo.exe
is found when looking up foo. -/
theorem findExecutableInPath_probes_exe_fallback :
    (∀ (fsExists : List Char → Bool) (delim : Char) (path executable : List Char),
      FindExecutableInPath fsExists delim path executable =
        ((candidates (splitTokens delim path) executable).find? fsExists).getD []) ∧
    FindExecutableInPath
      (fun c => c == ['/', 'b', 'i', 'n', '/', 'f', 'o', 'o', '.', 'e', 'x', 'e'])
      ':' ['/', 'b', 'i', 'n'] ['f', 'o', 'o'] =
      ['/', 'b', 'i', 'n', '/', 'f', 'o', 'o', '.', 'e', 'x', 'e'] := by
  constructor
  · intro fsExists delim path executable
    rw [FindExecutableInPath]
    exact searchTokens_eq_find fsExists executable (splitTokens delim path)
  · decide
